import Mathlib

/-!
Verification of the authentication core of the Node-V4 repository.

The repository's logic lives in `src/modules/auth.ts` (reproduced in the
repository README): `createJWT`, which signs `{ id, username }` with the
process-wide `JWT_SECRET` via the jsonwebtoken library, and the `protect`
middleware, which extracts the `Authorization` header, takes the second
space-separated part, verifies it, and either attaches the decoded payload
to `req.user` and calls `next()` or answers 401 "Not authorized".

The jsonwebtoken library is external to the repository, so its `sign` /
`verify` pair is modelled from its documented contract as the spec
describes it: `sign` deterministically produces a string token from the
payload plus an issued-at (`iat`) claim taken from the clock, and `verify`
succeeds exactly on tokens produced by `sign` with the same secret,
returning the decoded payload.  The keyed tag is idealized as
collision-free (an injective encoding), which is the standard ideal-MAC
reading of HS256; tokens contain no space characters, mirroring base64url.
-/

deriving instance DecidableEq for Except

namespace NodeV4

/-- The identity record handed to `createJWT`: a user's `id` and `username`. -/
structure User where
  id : String
  username : String
deriving DecidableEq

/-- A decoded JWT payload object.  `createJWT` signs `{ id, username }` and the
signing primitive adds an issued-at claim, so a decoded payload carries `id`,
`username` and optionally `iat` (`none` models a JS object with no `iat` key). -/
structure Claims where
  id : String
  username : String
  iat : Option Nat
deriving DecidableEq

/-- The process environment: `process.env.JWT_SECRET`, absent when the
variable is not configured. -/
structure Env where
  JWT_SECRET : Option String
deriving DecidableEq

/-- Failures of the modelled jsonwebtoken primitives: missing
secret (`secretOrPrivateKey must have a value`), token that does not parse,
and signature mismatch. -/
inductive JwtError where
  | missingSecret
  | malformed
  | invalidSignature
deriving DecidableEq

/-- Character-level escape used by the token encoding, so that encoded text
contains no '.', '|' or space characters (as base64url output would not). -/
def escChar (c : Char) : List Char :=
  if c = '\\' then ['\\', 'b']
  else if c = '.' then ['\\', 'd']
  else if c = '|' then ['\\', 'p']
  else if c = ' ' then ['\\', 's']
  else [c]

/-- Escape a whole character list. -/
def escL : List Char → List Char
  | [] => []
  | c :: cs => escChar c ++ escL cs

/-- Decode table for escape pairs. -/
def codeChar (x : Char) : Option Char :=
  if x = 'b' then some '\\'
  else if x = 'd' then some '.'
  else if x = 'p' then some '|'
  else if x = 's' then some ' '
  else none

/-- Inverse of `escL`; fails on text that is not the image of `escL`. -/
def unesc : List Char → Option (List Char)
  | [] => some []
  | c :: r =>
    if c = '\\' then
      match r with
      | [] => none
      | x :: r2 =>
        match codeChar x with
        | some d => (unesc r2).map (fun l => d :: l)
        | none => none
    else if c = '.' ∨ c = '|' ∨ c = ' ' then none
    else (unesc r).map (fun l => c :: l)

/-- Encoding of the optional issued-at claim (unary, so it stays inside the
token alphabet). -/
def encIat : Option Nat → List Char
  | none => []
  | some n => 't' :: List.replicate n 'u'

/-- Decode the issued-at field. -/
def decodeIat : List Char → Option (Option Nat)
  | [] => some none
  | c :: r => if c == 't' && r.all (fun x => x == 'u') then some (some r.length) else none

/-- Injective encoding of a payload object into the token body. -/
def encC (cl : Claims) : List Char :=
  escL cl.id.data ++ '|' :: (escL cl.username.data ++ '|' :: encIat cl.iat)

/-- The keyed tag of the modelled signing scheme: deterministic in the secret
and the signed body, and (ideal-MAC reading) collision-free. -/
def sigC (s : String) (body : List Char) : List Char :=
  escL s.data ++ '|' :: body

/-- A signed token: encoded payload, a dot, then the tag — the shape
`body.signature` of a JWS, with the fixed header folded away. -/
def signTokenL (cl : Claims) (s : String) : List Char :=
  encC cl ++ '.' :: sigC s (encC cl)

/-- Model of `jwt.sign({id, username}, secret)`: the library adds the
issued-at claim `iat := now` (seconds) to the payload before signing. -/
def jwtSign (id username : String) (s : String) (now : Nat) : String :=
  ⟨signTokenL ⟨id, username, some now⟩ s⟩

/-- Split a character list at the first occurrence of `sep`; `none` when
`sep` does not occur. -/
def splitAtFirst (sep : Char) : List Char → Option (List Char × List Char)
  | [] => none
  | c :: cs =>
    if c = sep then some ([], cs)
    else
      match splitAtFirst sep cs with
      | none => none
      | some (a, b) => some (c :: a, b)

/-- Decode a token body back into a payload object. -/
def decodeClaims (body : List Char) : Option Claims :=
  (splitAtFirst '|' body).bind fun q =>
    (splitAtFirst '|' q.2).bind fun q2 =>
      (unesc q.1).bind fun i =>
        (unesc q2.1).bind fun u2 =>
          (decodeIat q2.2).map fun ts => ⟨⟨i⟩, ⟨u2⟩, ts⟩

/-- The verification step after the token has been parsed at its dot:
recompute the tag over the body with the given secret, compare, and decode
the body on a match. -/
def verifyParsed (s : String) : Option (List Char × List Char) → Except JwtError Claims
  | none => .error .malformed
  | some q =>
    if q.2 = sigC s q.1 then
      match decodeClaims q.1 with
      | some c => .ok c
      | none => .error .malformed
    else .error .invalidSignature

/-- Model of `jwt.verify(token, secret)`: throws when the secret is missing,
otherwise parses the token at the dot, recomputes the tag over the body with
the given secret, and returns the decoded payload on a match.  The tokens of
this system carry no `exp` claim (`createJWT` sets no expiry), so no expiry
check arises. -/
def jwtVerify (t : String) (secret : Option String) : Except JwtError Claims :=
  match secret with
  | none => .error .missingSecret
  | some s => verifyParsed s (splitAtFirst '.' t.data)

/-- `createJWT` from `src/modules/auth.ts`: sign `{ id: user.id,
username: user.username }` with `process.env.JWT_SECRET`; `jwt.sign` throws
when the secret is absent, modelled as `Except.error`. -/
def createJWT (user : User) (env : Env) (now : Nat) : Except JwtError String :=
  match env.JWT_SECRET with
  | none => .error .missingSecret
  | some s => .ok (jwtSign user.id user.username s now)

/-- JavaScript `str.split(sep)` for a one-character separator: splits at every
occurrence, keeping empty fields (so `" x".split(" ")` is `["", "x"]`). -/
def splitCh (sep : Char) : List Char → List (List Char)
  | [] => [[]]
  | c :: cs =>
    if c = sep then [] :: splitCh sep cs
    else
      match splitCh sep cs with
      | [] => [[c]]
      | p :: ps => (c :: p) :: ps

/-- `bearer.split(" ")` as a String-level operation. -/
def jsSplit (s : String) (sep : Char) : List String :=
  (splitCh sep s.data).map (fun l => ⟨l⟩)

/-- `const [, token] = bearer.split(" ")` followed by the `!token` falsiness
test: the destructured second element, with both `undefined` and `""`
collapsing to `""` (both are falsy). -/
def jsSecondPart (h : String) : String :=
  (jsSplit h ' ').getD 1 ""

/-- An inbound request, reduced to what `protect` reads:
`req.headers.authorization`. -/
structure Request where
  authorization : Option String
deriving DecidableEq

/-- The observable actions `protect` can perform, in order: `res.status`,
`res.send`, console logging, `req.user = payload`, and `next()` (which is
what lets the router stage mounted after `protect` in
`app.use('/api', protect, router)` run). -/
inductive Effect where
  | setStatus (code : Nat)
  | send (body : String)
  | logMsg (msg : String)
  | setUser (payload : Claims)
  | callNext
deriving DecidableEq

/-- Rendering of `console.log(payload)`. -/
def claimsLog (c : Claims) : String :=
  c.id ++ " " ++ c.username

/-- Rendering of `console.error(e)` with jsonwebtoken's error messages. -/
def errLog : JwtError → String
  | .missingSecret => "secretOrPublicKey must have a value"
  | .malformed => "jwt malformed"
  | .invalidSignature => "invalid signature"

/-- The `protect` middleware from `src/modules/auth.ts`, as the ordered list
of actions it performs on a request:

1. `const bearer = req.headers.authorization; if (!bearer) { 401 }` —
   an absent header and the falsy empty string both fail the test;
2. `const [, token] = bearer.split(" "); if (!token) { log("here"); 401 }`;
3. `try { const payload = jwt.verify(token, process.env.JWT_SECRET);
   req.user = payload; console.log(payload); next(); }
   catch (e) { console.error(e); 401 }`. -/
def protect (req : Request) (env : Env) : List Effect :=
  match req.authorization with
  | none => [.setStatus 401, .send "Not authorized"]
  | some bearer =>
    if bearer = "" then [.setStatus 401, .send "Not authorized"]
    else
      let token := jsSecondPart bearer
      if token = "" then [.logMsg "here", .setStatus 401, .send "Not authorized"]
      else
        match jwtVerify token env.JWT_SECRET with
        | .ok payload => [.setUser payload, .logMsg (claimsLog payload), .callNext]
        | .error e => [.logMsg (errLog e), .setStatus 401, .send "Not authorized"]

/-- Whether an action is part of the HTTP response (`res.status` / `res.send`). -/
def isResponseEffect : Effect → Bool
  | .setStatus _ => true
  | .send _ => true
  | _ => false

/-- The response the client observes: the `res.*` actions in order. -/
def responseEffects (l : List Effect) : List Effect :=
  l.filter isResponseEffect

/-- A single-character corruption of a token: the character at position `i`
is replaced by `c`. -/
def strMutate (t : String) (i : Nat) (c : Char) : String :=
  ⟨t.data.set i c⟩

/-- How `jwt.verify` reports in `protect`: forwarding effects on success,
the logged 401 rejection on error. -/
def afterVerify : Except JwtError Claims → List Effect
  | .ok payload => [.setUser payload, .logMsg (claimsLog payload), .callNext]
  | .error e => [.logMsg (errLog e), .setStatus 401, .send "Not authorized"]

/-! ### Properties of the escape code -/

theorem special_not_mem_escChar (x c : Char) (hx : x = '.' ∨ x = '|' ∨ x = ' ') :
    x ∉ escChar c := by
  intro hmem
  unfold escChar at hmem
  split at hmem
  · rcases hx with h | h | h <;> subst h <;> revert hmem <;> decide
  · split at hmem
    · rcases hx with h | h | h <;> subst h <;> revert hmem <;> decide
    · split at hmem
      · rcases hx with h | h | h <;> subst h <;> revert hmem <;> decide
      · split at hmem
        · rcases hx with h | h | h <;> subst h <;> revert hmem <;> decide
        · rename_i h1 h2 h3 h4
          rw [List.mem_singleton] at hmem
          subst hmem
          rcases hx with h | h | h
          · exact h2 h
          · exact h3 h
          · exact h4 h

theorem special_not_mem_escL (x : Char) (hx : x = '.' ∨ x = '|' ∨ x = ' ')
    (l : List Char) : x ∉ escL l := by
  induction l with
  | nil => simp [escL]
  | cons c cs ih =>
    show x ∉ escChar c ++ escL cs
    rw [List.mem_append]
    rintro (h | h)
    · exact special_not_mem_escChar x c hx h
    · exact ih h

theorem unesc_cons_plain (c : Char) (r : List Char) (h1 : ¬c = '\\')
    (h2 : ¬(c = '.' ∨ c = '|' ∨ c = ' ')) :
    unesc (c :: r) = (unesc r).map (fun l => c :: l) := by
  cases r with
  | nil => simp [unesc, h1, h2]
  | cons x r2 => simp [unesc, h1, h2]

theorem unesc_escL (l : List Char) : unesc (escL l) = some l := by
  induction l with
  | nil => rfl
  | cons c cs ih =>
    show unesc (escChar c ++ escL cs) = some (c :: cs)
    by_cases h1 : c = '\\'
    · subst h1; simp [escChar, unesc, codeChar, ih]
    by_cases h2 : c = '.'
    · subst h2; simp [escChar, unesc, codeChar, ih]
    by_cases h3 : c = '|'
    · subst h3; simp [escChar, unesc, codeChar, ih]
    by_cases h4 : c = ' '
    · subst h4; simp [escChar, unesc, codeChar, ih]
    · have hesc : escChar c = [c] := by simp [escChar, h1, h2, h3, h4]
      rw [hesc, List.singleton_append, unesc_cons_plain c _ h1 (by tauto), ih]
      rfl

theorem escL_inj (a b : List Char) (h : escL a = escL b) : a = b := by
  have ha := unesc_escL a
  rw [h, unesc_escL b] at ha
  exact (Option.some.injEq _ _).mp ha.symm

/-! ### Properties of the splitters -/

theorem splitAtFirst_append_cons (sep : Char) (a r : List Char) (ha : sep ∉ a) :
    splitAtFirst sep (a ++ sep :: r) = some (a, r) := by
  induction a with
  | nil => simp [splitAtFirst]
  | cons c cs ih =>
    have hc : ¬c = sep := fun h => ha (h ▸ List.mem_cons_self c cs)
    have ha2 : sep ∉ cs := fun h => ha (List.mem_cons_of_mem c h)
    simp [splitAtFirst, hc, ih ha2]

theorem splitAtFirst_eq_none (sep : Char) (l : List Char) (h : sep ∉ l) :
    splitAtFirst sep l = none := by
  induction l with
  | nil => rfl
  | cons c cs ih =>
    have hc : ¬c = sep := fun hq => h (hq ▸ List.mem_cons_self c cs)
    have h2 : sep ∉ cs := fun hq => h (List.mem_cons_of_mem c hq)
    simp [splitAtFirst, hc, ih h2]

theorem splitCh_append_cons (sep : Char) (a b : List Char) (ha : sep ∉ a) :
    splitCh sep (a ++ sep :: b) = a :: splitCh sep b := by
  induction a with
  | nil => simp [splitCh]
  | cons c cs ih =>
    have hc : ¬c = sep := fun h => ha (h ▸ List.mem_cons_self c cs)
    have ha2 : sep ∉ cs := fun h => ha (List.mem_cons_of_mem c h)
    simp [splitCh, hc, ih ha2]

theorem splitCh_no_sep (sep : Char) (l : List Char) (h : sep ∉ l) :
    splitCh sep l = [l] := by
  induction l with
  | nil => rfl
  | cons c cs ih =>
    have hc : ¬c = sep := fun hq => h (hq ▸ List.mem_cons_self c cs)
    have h2 : sep ∉ cs := fun hq => h (List.mem_cons_of_mem c hq)
    simp [splitCh, hc, ih h2]

/-! ### Roundtrip of the payload encoding -/

theorem decodeIat_encIat (o : Option Nat) : decodeIat (encIat o) = some o := by
  cases o with
  | none => rfl
  | some n =>
    show decodeIat ('t' :: List.replicate n 'u') = some (some n)
    have hall : (List.replicate n 'u').all (fun x => x == 'u') = true := by
      rw [List.all_eq_true]
      intro x hx
      rw [List.eq_of_mem_replicate hx]
      rfl
    simp [decodeIat, hall]

theorem not_mem_encIat (x : Char) (hx : x ≠ 't' ∧ x ≠ 'u') (o : Option Nat) :
    x ∉ encIat o := by
  cases o with
  | none => simp [encIat]
  | some n =>
    simp only [encIat, List.mem_cons]
    rintro (h | h)
    · exact hx.1 h
    · exact hx.2 (List.eq_of_mem_replicate h)

theorem dot_not_mem_encC (cl : Claims) : '.' ∉ encC cl := by
  unfold encC
  simp only [List.mem_append, List.mem_cons]
  rintro (h | h | h | h | h)
  · exact special_not_mem_escL '.' (Or.inl rfl) _ h
  · simp at h
  · exact special_not_mem_escL '.' (Or.inl rfl) _ h
  · simp at h
  · exact not_mem_encIat '.' (by simp) _ h

theorem space_not_mem_encC (cl : Claims) : ' ' ∉ encC cl := by
  unfold encC
  simp only [List.mem_append, List.mem_cons]
  rintro (h | h | h | h | h)
  · exact special_not_mem_escL ' ' (Or.inr (Or.inr rfl)) _ h
  · simp at h
  · exact special_not_mem_escL ' ' (Or.inr (Or.inr rfl)) _ h
  · simp at h
  · exact not_mem_encIat ' ' (by simp) _ h

theorem decodeClaims_encC (cl : Claims) : decodeClaims (encC cl) = some cl := by
  unfold decodeClaims encC
  rw [splitAtFirst_append_cons '|' _ _ (special_not_mem_escL '|' (Or.inr (Or.inl rfl)) _)]
  simp only [Option.some_bind]
  rw [splitAtFirst_append_cons '|' _ _ (special_not_mem_escL '|' (Or.inr (Or.inl rfl)) _)]
  simp only [Option.some_bind]
  rw [unesc_escL]
  simp only [Option.some_bind]
  rw [unesc_escL]
  simp only [Option.some_bind]
  rw [decodeIat_encIat]
  rfl

theorem encC_inj (cl cl2 : Claims) (h : encC cl = encC cl2) : cl = cl2 := by
  have h1 := decodeClaims_encC cl
  rw [h, decodeClaims_encC cl2] at h1
  exact (Option.some.injEq _ _).mp h1.symm

/-! ### Properties of the tag and the full token -/

theorem dot_not_mem_sigC (s : String) (body : List Char) (hb : '.' ∉ body) :
    '.' ∉ sigC s body := by
  unfold sigC
  simp only [List.mem_append, List.mem_cons]
  rintro (h | h | h)
  · exact special_not_mem_escL '.' (Or.inl rfl) _ h
  · simp at h
  · exact hb h

theorem space_not_mem_sigC (s : String) (body : List Char) (hb : ' ' ∉ body) :
    ' ' ∉ sigC s body := by
  unfold sigC
  simp only [List.mem_append, List.mem_cons]
  rintro (h | h | h)
  · exact special_not_mem_escL ' ' (Or.inr (Or.inr rfl)) _ h
  · simp at h
  · exact hb h

theorem sigC_inj (s s2 : String) (b b2 : List Char) (h : sigC s b = sigC s2 b2) :
    s = s2 ∧ b = b2 := by
  have h1 := splitAtFirst_append_cons '|' (escL s.data) b
    (special_not_mem_escL '|' (Or.inr (Or.inl rfl)) _)
  have h2 := splitAtFirst_append_cons '|' (escL s2.data) b2
    (special_not_mem_escL '|' (Or.inr (Or.inl rfl)) _)
  unfold sigC at h
  rw [h] at h1
  rw [h2] at h1
  have h3 := (Option.some.injEq _ _).mp h1
  have he : escL s2.data = escL s.data := congrArg Prod.fst h3
  have hb : b2 = b := congrArg Prod.snd h3
  refine ⟨?_, hb.symm⟩
  have := escL_inj _ _ he
  exact (String.ext this).symm

theorem space_not_mem_signTokenL (cl : Claims) (s : String) :
    ' ' ∉ signTokenL cl s := by
  unfold signTokenL
  simp only [List.mem_append, List.mem_cons]
  rintro (h | h | h)
  · exact space_not_mem_encC cl h
  · simp at h
  · exact space_not_mem_sigC s _ (space_not_mem_encC cl) h

theorem signTokenL_ne_nil (cl : Claims) (s : String) : signTokenL cl s ≠ [] := by
  unfold signTokenL
  intro h
  rcases List.append_eq_nil.mp h with ⟨_, h2⟩
  exact List.cons_ne_nil _ _ h2

theorem jwtSign_ne_empty (id username s : String) (now : Nat) :
    jwtSign id username s now ≠ "" := by
  intro h
  have : (jwtSign id username s now).data = ("" : String).data := by rw [h]
  exact signTokenL_ne_nil _ _ this

theorem splitAtFirst_signTokenL (cl : Claims) (s : String) :
    splitAtFirst '.' (signTokenL cl s) = some (encC cl, sigC s (encC cl)) :=
  splitAtFirst_append_cons '.' _ _ (dot_not_mem_encC cl)

theorem signTokenL_inj_claims (cl cl2 : Claims) (s s2 : String)
    (h : signTokenL cl s = signTokenL cl2 s2) : cl = cl2 := by
  have h1 := splitAtFirst_signTokenL cl s
  rw [h, splitAtFirst_signTokenL cl2 s2] at h1
  have h3 := (Option.some.injEq _ _).mp h1
  have h4 : encC cl2 = encC cl := congrArg Prod.fst h3
  exact (encC_inj _ _ h4).symm

/-! ### Behaviour of the modelled verifier on honest and forged tokens -/

theorem verifyParsed_some (s : String) (body rest : List Char) :
    verifyParsed s (some (body, rest)) =
      if rest = sigC s body then
        match decodeClaims body with
        | some c => (.ok c : Except JwtError Claims)
        | none => .error .malformed
      else .error .invalidSignature := rfl

theorem jwtVerify_sign (cl : Claims) (s : String) :
    jwtVerify ⟨signTokenL cl s⟩ (some s) = .ok cl := by
  show verifyParsed s (splitAtFirst '.' (signTokenL cl s)) = .ok cl
  rw [splitAtFirst_signTokenL, verifyParsed_some, if_pos rfl, decodeClaims_encC]

theorem jwtVerify_wrong_secret (cl : Claims) (s s2 : String) (hne : s2 ≠ s) :
    jwtVerify ⟨signTokenL cl s2⟩ (some s) = .error .invalidSignature := by
  show verifyParsed s (splitAtFirst '.' (signTokenL cl s2)) = .error .invalidSignature
  rw [splitAtFirst_signTokenL, verifyParsed_some]
  rw [if_neg (fun h => hne (sigC_inj s2 s _ _ h).1)]

/-! ### Single-character corruption is always detected -/

theorem set_ne_of_get_ne (l : List Char) (i : Nat) (c : Char) (h : i < l.length)
    (hc : l[i]? ≠ some c) : l.set i c ≠ l := by
  intro heq
  apply hc
  have h2 : (l.set i c)[i]? = some c := List.getElem?_set_self h
  rw [heq] at h2
  exact h2

theorem dot_not_mem_set (l : List Char) (i : Nat) (c : Char) (hl : '.' ∉ l)
    (hc : c ≠ '.') : '.' ∉ l.set i c := by
  intro h
  rcases List.mem_or_eq_of_mem_set h with h2 | h2
  · exact hl h2
  · exact hc h2.symm

theorem jwtVerify_mutated (cl : Claims) (s : String) (i : Nat) (c : Char)
    (hi : i < (signTokenL cl s).length)
    (hc : (signTokenL cl s).get ⟨i, hi⟩ ≠ c) :
    ∃ e, jwtVerify ⟨(signTokenL cl s).set i c⟩ (some s) = .error e := by
  have hget : (encC cl ++ '.' :: sigC s (encC cl))[i]? ≠ some c := by
    show (signTokenL cl s)[i]? ≠ some c
    rw [List.getElem?_eq_getElem hi]
    intro habs
    apply hc
    rw [List.get_eq_getElem]
    exact (Option.some.injEq _ _).mp habs
  have hdotb : '.' ∉ encC cl := dot_not_mem_encC cl
  have hdots : '.' ∉ sigC s (encC cl) := dot_not_mem_sigC s _ hdotb
  have hlen : (signTokenL cl s).length =
      (encC cl).length + ((sigC s (encC cl)).length + 1) := by
    show (encC cl ++ '.' :: sigC s (encC cl)).length = _
    simp [List.length_append]
  rcases Nat.lt_trichotomy i (encC cl).length with hlt | heq | hgt
  · -- the corrupted character lies in the encoded body
    have hbget : (encC cl)[i]? ≠ some c := by
      rw [List.getElem?_append_left hlt] at hget
      exact hget
    have hset : (signTokenL cl s).set i c =
        (encC cl).set i c ++ '.' :: sigC s (encC cl) :=
      List.set_append_left i c hlt
    by_cases hcdot : c = '.'
    · -- the corruption inserts a dot: the token re-parses at the new dot,
      -- and the recomputed tag cannot match a tail that still contains a dot
      subst hcdot
      have htake : '.' ∉ (encC cl).take i :=
        fun hm => hdotb (List.take_subset i (encC cl) hm)
      have hset2 : (encC cl).set i '.' =
          (encC cl).take i ++ '.' :: (encC cl).drop (i + 1) :=
        List.set_eq_take_cons_drop '.' hlt
      refine ⟨.invalidSignature, ?_⟩
      show verifyParsed s (splitAtFirst '.' ((signTokenL cl s).set i '.')) = _
      rw [hset, hset2, List.append_assoc, List.cons_append]
      rw [splitAtFirst_append_cons '.' _ _ htake, verifyParsed_some]
      rw [if_neg ?_]
      intro habs
      have hmem : '.' ∈ (encC cl).drop (i + 1) ++ '.' :: sigC s (encC cl) :=
        List.mem_append_right _ (List.mem_cons_self _ _)
      rw [habs] at hmem
      exact dot_not_mem_sigC s _ htake hmem
    · -- the corruption stays inside the body: the tag no longer matches
      have hbody2 : '.' ∉ (encC cl).set i c := dot_not_mem_set _ i c hdotb hcdot
      refine ⟨.invalidSignature, ?_⟩
      show verifyParsed s (splitAtFirst '.' ((signTokenL cl s).set i c)) = _
      rw [hset, splitAtFirst_append_cons '.' _ _ hbody2, verifyParsed_some]
      rw [if_neg ?_]
      intro habs
      have h2 := (sigC_inj s s _ _ habs).2
      exact set_ne_of_get_ne _ i c hlt hbget h2.symm
  · -- the corrupted character is the separating dot: no dot remains
    have hic : ¬c = '.' := by
      intro hcd
      subst hcd
      apply hget
      rw [List.getElem?_append_right (Nat.le_of_eq heq.symm)]
      have h0 : i - (encC cl).length = 0 := by omega
      rw [h0]
      exact List.getElem?_cons_zero
    have hset : (signTokenL cl s).set i c = encC cl ++ c :: sigC s (encC cl) := by
      have h1 : (signTokenL cl s).set i c =
          encC cl ++ ('.' :: sigC s (encC cl)).set (i - (encC cl).length) c :=
        List.set_append_right i c (Nat.le_of_eq heq.symm)
      have h0 : i - (encC cl).length = 0 := by omega
      rw [h1, h0]
      rfl
    have hnodot : '.' ∉ (signTokenL cl s).set i c := by
      rw [hset]
      intro hmem
      rcases List.mem_append.mp hmem with h2 | h2
      · exact hdotb h2
      · rcases List.mem_cons.mp h2 with h3 | h3
        · exact hic h3.symm
        · exact hdots h3
    refine ⟨.malformed, ?_⟩
    show verifyParsed s (splitAtFirst '.' ((signTokenL cl s).set i c)) = _
    rw [splitAtFirst_eq_none '.' _ hnodot]
    rfl
  · -- the corrupted character lies in the tag: the stored tag no longer
    -- matches the recomputed one
    have hle : (encC cl).length ≤ i := Nat.le_of_lt hgt
    obtain ⟨k, hk⟩ : ∃ k, i - (encC cl).length = k + 1 :=
      ⟨i - (encC cl).length - 1, by omega⟩
    have hklt : k < (sigC s (encC cl)).length := by omega
    have hsget : (sigC s (encC cl))[k]? ≠ some c := by
      rw [List.getElem?_append_right hle, hk, List.getElem?_cons_succ] at hget
      exact hget
    have hset : (signTokenL cl s).set i c =
        encC cl ++ '.' :: (sigC s (encC cl)).set k c := by
      have h1 : (signTokenL cl s).set i c =
          encC cl ++ ('.' :: sigC s (encC cl)).set (i - (encC cl).length) c :=
        List.set_append_right i c hle
      rw [h1, hk]
      rfl
    refine ⟨.invalidSignature, ?_⟩
    show verifyParsed s (splitAtFirst '.' ((signTokenL cl s).set i c)) = _
    rw [hset, splitAtFirst_append_cons '.' _ _ hdotb, verifyParsed_some]
    rw [if_neg ?_]
    exact fun habs => set_ne_of_get_ne _ k c hklt hsget habs

/-! ### Shape analysis of the protect gate -/

theorem protect_none (env : Env) :
    protect ⟨none⟩ env = [.setStatus 401, .send "Not authorized"] := rfl

theorem protect_empty_header (env : Env) :
    protect ⟨some ""⟩ env = [.setStatus 401, .send "Not authorized"] := rfl

theorem protect_no_token (h : String) (env : Env) (hne : ¬h = "")
    (hemp : jsSecondPart h = "") :
    protect ⟨some h⟩ env = [.logMsg "here", .setStatus 401, .send "Not authorized"] := by
  simp only [protect]
  rw [if_neg hne, if_pos hemp]

theorem protect_some_verify (h : String) (env : Env) (hne : ¬h = "")
    (htne : ¬jsSecondPart h = "") :
    protect ⟨some h⟩ env = afterVerify (jwtVerify (jsSecondPart h) env.JWT_SECRET) := by
  simp only [protect]
  rw [if_neg hne, if_neg htne]
  cases hv : jwtVerify (jsSecondPart h) env.JWT_SECRET with
  | ok payload => rfl
  | error e => rfl

theorem protect_cases (req : Request) (env : Env) :
    (∃ payload, protect req env =
        [.setUser payload, .logMsg (claimsLog payload), .callNext]) ∨
    protect req env = [.setStatus 401, .send "Not authorized"] ∨
    protect req env = [.logMsg "here", .setStatus 401, .send "Not authorized"] ∨
    (∃ e, protect req env = [.logMsg (errLog e), .setStatus 401, .send "Not authorized"]) := by
  obtain ⟨a⟩ := req
  cases a with
  | none => exact Or.inr (Or.inl rfl)
  | some h =>
    by_cases h1 : h = ""
    · subst h1
      exact Or.inr (Or.inl rfl)
    by_cases h2 : jsSecondPart h = ""
    · exact Or.inr (Or.inr (Or.inl (protect_no_token h env h1 h2)))
    cases hv : jwtVerify (jsSecondPart h) env.JWT_SECRET with
    | ok payload =>
      refine Or.inl ⟨payload, ?_⟩
      rw [protect_some_verify h env h1 h2, hv]
      rfl
    | error e =>
      refine Or.inr (Or.inr (Or.inr ⟨e, ?_⟩))
      rw [protect_some_verify h env h1 h2, hv]
      rfl

theorem protect_forwards_token (h : String) (cl : Claims) (s : String) (env : Env)
    (hsec : env.JWT_SECRET = some s) (htok : jsSecondPart h = ⟨signTokenL cl s⟩) :
    protect ⟨some h⟩ env = [.setUser cl, .logMsg (claimsLog cl), .callNext] := by
  have htne : ¬jsSecondPart h = "" := by
    rw [htok]
    intro habs
    exact signTokenL_ne_nil cl s (congrArg String.data habs)
  have hne : ¬h = "" := by
    intro hh
    subst hh
    exact htne rfl
  rw [protect_some_verify h env hne htne, htok, hsec, jwtVerify_sign]
  rfl

theorem jsSecondPart_scheme_append (a b : String) (ha : ' ' ∉ a.data)
    (hb : ' ' ∉ b.data) : jsSecondPart (a ++ " " ++ b) = b := by
  unfold jsSecondPart jsSplit
  have hd : (a ++ " " ++ b).data = a.data ++ ' ' :: b.data := by
    simp [String.data_append]
  rw [hd, splitCh_append_cons ' ' _ _ ha, splitCh_no_sep ' ' _ hb]
  rfl

/-- The identity record `{ id, username }` viewed as a payload-shaped object:
a JS object with `id` and `username` keys and no `iat` key. -/
def identityClaims (u : User) : Claims :=
  ⟨u.id, u.username, none⟩

/-! ### The claims -/

/-- C1: for every request whose Authorization header yields, as its second
space-separated part, a token issued by `createJWT` under the configured
secret (such tokens never expire, as `createJWT` sets no expiry), `protect`
attaches a payload whose `id` and `username` are exactly the ones passed to
`createJWT`, and calls `next`, so the non-null claim is visible downstream. -/
theorem protect_valid_token_forwards (req : Request) (env : Env) (h tok : String)
    (u : User) (s : String) (now : Nat)
    (hh : req.authorization = some h)
    (hs : env.JWT_SECRET = some s)
    (hcreate : createJWT u env now = Except.ok tok)
    (htok : jsSecondPart h = tok) :
    ∃ payload : Claims,
      protect req env =
        [Effect.setUser payload, Effect.logMsg (claimsLog payload), Effect.callNext] ∧
      payload.id = u.id ∧ payload.username = u.username := by
  obtain ⟨a⟩ := req
  have ha : a = some h := hh
  subst ha
  obtain ⟨sec⟩ := env
  have hsec : sec = some s := hs
  subst hsec
  have htok2 : tok = jwtSign u.id u.username s now := by
    have hc2 : Except.ok (jwtSign u.id u.username s now) = Except.ok tok := hcreate
    exact ((Except.ok.injEq _ _).mp hc2).symm
  rw [htok2] at htok
  refine ⟨⟨u.id, u.username, some now⟩, ?_, rfl, rfl⟩
  exact protect_forwards_token h ⟨u.id, u.username, some now⟩ s _ hs htok

theorem protect_valid_token_forwards_witness :
    ∃ payload : Claims,
      protect ⟨some ("Bearer " ++ jwtSign "a" "b" "k" 0)⟩ ⟨some "k"⟩ =
        [Effect.setUser payload, Effect.logMsg (claimsLog payload), Effect.callNext] ∧
      payload.id = "a" ∧ payload.username = "b" :=
  protect_valid_token_forwards ⟨some ("Bearer " ++ jwtSign "a" "b" "k" 0)⟩ ⟨some "k"⟩
    ("Bearer " ++ jwtSign "a" "b" "k" 0) (jwtSign "a" "b" "k" 0) ⟨"a", "b"⟩ "k" 0
    rfl rfl rfl (by decide)

/-- C2: for every request with no Authorization header, `protect` sets
status 401, sends "Not authorized", and returns without invoking `next`. -/
theorem protect_missing_header_rejects (req : Request) (env : Env)
    (hh : req.authorization = none) :
    protect req env = [Effect.setStatus 401, Effect.send "Not authorized"] ∧
    Effect.callNext ∉ protect req env := by
  obtain ⟨a⟩ := req
  have ha : a = none := hh
  subst ha
  refine ⟨rfl, ?_⟩
  rw [protect_none]
  decide

theorem protect_missing_header_rejects_witness :
    protect ⟨none⟩ ⟨none⟩ = [Effect.setStatus 401, Effect.send "Not authorized"] ∧
    Effect.callNext ∉ protect ⟨none⟩ ⟨none⟩ :=
  protect_missing_header_rejects ⟨none⟩ ⟨none⟩ rfl

/-- C3: for every request with an Authorization header, `protect` parses it by
splitting on the space character (JS split, which keeps empty fields) and
taking the second field; when that field is missing or empty the gate answers
401 without invoking `next`, and otherwise the gate's entire behaviour is the
verification outcome of exactly that field. -/
theorem protect_parses_second_part (req : Request) (env : Env) (h : String)
    (hh : req.authorization = some h) :
    (jsSecondPart h = "" →
      responseEffects (protect req env) =
        [Effect.setStatus 401, Effect.send "Not authorized"] ∧
      Effect.callNext ∉ protect req env) ∧
    (jsSecondPart h ≠ "" →
      protect req env = afterVerify (jwtVerify (jsSecondPart h) env.JWT_SECRET)) := by
  obtain ⟨a⟩ := req
  have ha : a = some h := hh
  subst ha
  constructor
  · intro hemp
    by_cases h1 : h = ""
    · subst h1
      refine ⟨rfl, ?_⟩
      rw [protect_empty_header]
      decide
    · rw [protect_no_token h env h1 hemp]
      exact ⟨rfl, by decide⟩
  · intro htne
    have hne : ¬h = "" := by
      intro hq
      subst hq
      exact htne rfl
    exact protect_some_verify h env hne htne

theorem protect_parses_second_part_witness :
    responseEffects (protect ⟨some "Bearer"⟩ ⟨none⟩) =
      [Effect.setStatus 401, Effect.send "Not authorized"] ∧
    Effect.callNext ∉ protect ⟨some "Bearer"⟩ ⟨none⟩ :=
  (protect_parses_second_part ⟨some "Bearer"⟩ ⟨none⟩ "Bearer" rfl).1 (by decide)

/-- C4: a request whose credential part is a token signed under a different
secret, or a single-character corruption of a token signed under the
configured secret, fails verification and is rejected 401 without `next`. -/
theorem protect_rejects_forged_token (req : Request) (env : Env) (h s : String)
    (hh : req.authorization = some h) (hs : env.JWT_SECRET = some s)
    (hbad :
      (∃ id2 un2 now2 s2, s2 ≠ s ∧ jsSecondPart h = jwtSign id2 un2 s2 now2) ∨
      (∃ id2 un2 now2 i c, ∃ hi : i < (jwtSign id2 un2 s now2).data.length,
        (jwtSign id2 un2 s now2).data.get ⟨i, hi⟩ ≠ c ∧
        jsSecondPart h = strMutate (jwtSign id2 un2 s now2) i c)) :
    (∃ e, jwtVerify (jsSecondPart h) env.JWT_SECRET = Except.error e) ∧
    responseEffects (protect req env) =
      [Effect.setStatus 401, Effect.send "Not authorized"] ∧
    Effect.callNext ∉ protect req env := by
  obtain ⟨a⟩ := req
  have ha : a = some h := hh
  subst ha
  have hverr : ∃ e, jwtVerify (jsSecondPart h) (some s) = Except.error e := by
    rcases hbad with ⟨id2, un2, now2, s2, hne2, htk⟩ | ⟨id2, un2, now2, i, c, hi, hgne, htk⟩
    · rw [htk]
      exact ⟨.invalidSignature, jwtVerify_wrong_secret ⟨id2, un2, some now2⟩ s s2 hne2⟩
    · rw [htk]
      exact jwtVerify_mutated ⟨id2, un2, some now2⟩ s i c hi hgne
  have htne : ¬jsSecondPart h = "" := by
    rcases hbad with ⟨id2, un2, now2, s2, hne2, htk⟩ | ⟨id2, un2, now2, i, c, hi, hgne, htk⟩
    · rw [htk]
      exact jwtSign_ne_empty id2 un2 s2 now2
    · rw [htk]
      intro habs
      have hdata : (signTokenL ⟨id2, un2, some now2⟩ s).set i c = [] :=
        congrArg String.data habs
      have hlen0 := congrArg List.length hdata
      rw [List.length_set] at hlen0
      exact signTokenL_ne_nil ⟨id2, un2, some now2⟩ s (List.length_eq_zero.mp hlen0)
  have hne : ¬h = "" := by
    intro hq
    subst hq
    exact htne rfl
  obtain ⟨e, he⟩ := hverr
  refine ⟨⟨e, by rw [hs]; exact he⟩, ?_, ?_⟩
  · rw [protect_some_verify h env hne htne, hs, he]
    rfl
  · rw [protect_some_verify h env hne htne, hs, he]
    simp [afterVerify]

theorem protect_rejects_forged_token_witness :
    (∃ e, jwtVerify (jsSecondPart ("Bearer " ++ jwtSign "a" "b" "k2" 0))
        (Env.mk (some "k")).JWT_SECRET = Except.error e) ∧
    responseEffects (protect ⟨some ("Bearer " ++ jwtSign "a" "b" "k2" 0)⟩ ⟨some "k"⟩) =
      [Effect.setStatus 401, Effect.send "Not authorized"] ∧
    Effect.callNext ∉ protect ⟨some ("Bearer " ++ jwtSign "a" "b" "k2" 0)⟩ ⟨some "k"⟩ :=
  protect_rejects_forged_token ⟨some ("Bearer " ++ jwtSign "a" "b" "k2" 0)⟩ ⟨some "k"⟩
    ("Bearer " ++ jwtSign "a" "b" "k2" 0) "k" rfl rfl
    (Or.inl ⟨"a", "b", 0, "k2", by decide, by decide⟩)

/-- C5 counterexample: the round-trip is not an equality of records.  For the
identity `{id: "a", username: "b"}` signed with secret "k" at second 0, the
token verifies, but the decoded payload carries the issued-at claim the
signing primitive added, so it differs from the identity record itself. -/
theorem roundtrip_not_exact_equality :
    createJWT ⟨"a", "b"⟩ ⟨some "k"⟩ 0 = Except.ok (jwtSign "a" "b" "k" 0) ∧
    jwtVerify (jwtSign "a" "b" "k" 0) (some "k") = Except.ok ⟨"a", "b", some 0⟩ ∧
    jwtVerify (jwtSign "a" "b" "k" 0) (some "k") ≠
      Except.ok (identityClaims ⟨"a", "b"⟩) := by
  decide

/-- C5 (amended): for any well-formed identity record, a fixed secret and no
elapsed expiry, verifying the token produced by the issuer succeeds and
returns a payload whose `id` and `username` equal the identity record's; the
payload additionally carries the issued-at claim, so it is not equal to the
identity record as a whole. -/
theorem roundtrip_preserves_identity_fields (u : User) (s : String) (now : Nat)
    (t : String) (hwf1 : u.id ≠ "") (hwf2 : u.username ≠ "")
    (hc : createJWT u ⟨some s⟩ now = Except.ok t) :
    ∃ c : Claims, jwtVerify t (some s) = Except.ok c ∧
      c.id = u.id ∧ c.username = u.username ∧ c.iat = some now := by
  have hc2 : Except.ok (jwtSign u.id u.username s now) = Except.ok t := hc
  have ht : t = jwtSign u.id u.username s now := ((Except.ok.injEq _ _).mp hc2).symm
  subst ht
  exact ⟨⟨u.id, u.username, some now⟩, jwtVerify_sign ⟨u.id, u.username, some now⟩ s,
    rfl, rfl, rfl⟩

theorem roundtrip_preserves_identity_fields_witness :
    ∃ c : Claims, jwtVerify (jwtSign "a" "b" "k" 0) (some "k") = Except.ok c ∧
      c.id = "a" ∧ c.username = "b" ∧ c.iat = some 0 :=
  roundtrip_preserves_identity_fields ⟨"a", "b"⟩ "k" 0 (jwtSign "a" "b" "k" 0)
    (by decide) (by decide) rfl

/-- C6 counterexample: `createJWT` is not deterministic across calls — two
calls with the same identity record and the same secret, made at different
seconds, return different token strings, because the signing primitive embeds
the issued-at timestamp. -/
theorem createJWT_differs_across_time :
    createJWT ⟨"a", "b"⟩ ⟨some "k"⟩ 0 ≠ createJWT ⟨"a", "b"⟩ ⟨some "k"⟩ 1 := by
  decide

/-- C6 (amended): `createJWT` is a pure function of the identity record, the
secret and the issuing time: two calls with the same identity and secret at
the same second return identical tokens, and two calls at different seconds
return different tokens. -/
theorem createJWT_deterministic_at_fixed_time (u : User) (env : Env)
    (now now2 : Nat) :
    (now = now2 → createJWT u env now = createJWT u env now2) ∧
    (∀ s, env.JWT_SECRET = some s → now ≠ now2 →
      createJWT u env now ≠ createJWT u env now2) := by
  constructor
  · intro hq
    rw [hq]
  · intro s hs hne habs
    obtain ⟨sec⟩ := env
    have hsec : sec = some s := hs
    subst hsec
    have h2 : jwtSign u.id u.username s now = jwtSign u.id u.username s now2 :=
      (Except.ok.injEq _ _).mp habs
    have h3 : signTokenL ⟨u.id, u.username, some now⟩ s =
        signTokenL ⟨u.id, u.username, some now2⟩ s := congrArg String.data h2
    have h4 := signTokenL_inj_claims _ _ _ _ h3
    have h5 : some now = some now2 := congrArg Claims.iat h4
    exact hne ((Option.some.injEq _ _).mp h5)

theorem createJWT_deterministic_at_fixed_time_witness :
    createJWT ⟨"a", "b"⟩ ⟨some "k"⟩ 0 = createJWT ⟨"a", "b"⟩ ⟨some "k"⟩ 0 ∧
    createJWT ⟨"a", "b"⟩ ⟨some "k"⟩ 0 ≠ createJWT ⟨"a", "b"⟩ ⟨some "k"⟩ 1 :=
  ⟨(createJWT_deterministic_at_fixed_time ⟨"a", "b"⟩ ⟨some "k"⟩ 0 0).1 rfl,
   (createJWT_deterministic_at_fixed_time ⟨"a", "b"⟩ ⟨some "k"⟩ 0 1).2 "k" rfl
     (by decide)⟩

/-- C7: whatever the failure cause (missing header, malformed credential,
invalid signature, missing secret), every rejection produces the identical
external response: status 401 with the plain-text body "Not authorized". -/
theorem protect_uniform_rejection (req : Request) (env : Env)
    (hrej : Effect.callNext ∉ protect req env) :
    responseEffects (protect req env) =
      [Effect.setStatus 401, Effect.send "Not authorized"] := by
  rcases protect_cases req env with ⟨p, hp⟩ | hp | hp | ⟨e, hp⟩
  · rw [hp] at hrej
    simp at hrej
  · rw [hp]
    rfl
  · rw [hp]
    rfl
  · rw [hp]
    rfl

theorem protect_uniform_rejection_witness :
    responseEffects (protect ⟨none⟩ ⟨none⟩) =
      [Effect.setStatus 401, Effect.send "Not authorized"] :=
  protect_uniform_rejection ⟨none⟩ ⟨none⟩ (by decide)

/-- C8: on every request `protect` reaches exactly one terminal outcome:
either it forwards — calling `next` once, touching the request and response
only by the `req.user` attachment, and emitting no response of its own — or
it rejects with the 401 response and `next` is never invoked. -/
theorem protect_single_outcome (req : Request) (env : Env) :
    (∃ payload, protect req env =
        [Effect.setUser payload, Effect.logMsg (claimsLog payload), Effect.callNext] ∧
      responseEffects (protect req env) = []) ∨
    (responseEffects (protect req env) =
        [Effect.setStatus 401, Effect.send "Not authorized"] ∧
      Effect.callNext ∉ protect req env) := by
  rcases protect_cases req env with ⟨p, hp⟩ | hp | hp | ⟨e, hp⟩
  · left
    exact ⟨p, hp, by rw [hp]; rfl⟩
  · right
    refine ⟨by rw [hp]; rfl, ?_⟩
    rw [hp]
    decide
  · right
    refine ⟨by rw [hp]; rfl, ?_⟩
    rw [hp]
    decide
  · right
    refine ⟨by rw [hp]; rfl, ?_⟩
    rw [hp]
    simp

/-- C9 counterexample: with the secret unconfigured, a request reaching the
gate is answered per-request with the ordinary 401 rejection — the
configuration failure is caught by the gate's try/catch, not fatal. -/
theorem missing_secret_handled_per_request :
    protect ⟨some "Bearer x"⟩ ⟨none⟩ =
      [Effect.logMsg (errLog JwtError.missingSecret), Effect.setStatus 401,
       Effect.send "Not authorized"] := by
  decide

/-- C9 (amended): when the signing secret is unavailable, `createJWT` fails
with the missing-secret error rather than returning a token; but nothing is
fatal at startup — the gate handles the failure per-request, never forwarding
a request and answering each with the uniform 401 response. -/
theorem createJWT_missing_secret_fails (u : User) (now : Nat) (req : Request) :
    createJWT u ⟨none⟩ now = Except.error JwtError.missingSecret ∧
    Effect.callNext ∉ protect req ⟨none⟩ ∧
    responseEffects (protect req ⟨none⟩) =
      [Effect.setStatus 401, Effect.send "Not authorized"] := by
  refine ⟨rfl, ?_⟩
  obtain ⟨a⟩ := req
  cases a with
  | none =>
    rw [protect_none]
    exact ⟨by decide, rfl⟩
  | some h =>
    by_cases h1 : h = ""
    · subst h1
      rw [protect_empty_header]
      exact ⟨by decide, rfl⟩
    by_cases h2 : jsSecondPart h = ""
    · rw [protect_no_token h ⟨none⟩ h1 h2]
      exact ⟨by decide, rfl⟩
    · rw [protect_some_verify h ⟨none⟩ h1 h2]
      show Effect.callNext ∉ afterVerify (Except.error JwtError.missingSecret) ∧
        responseEffects (afterVerify (Except.error JwtError.missingSecret)) =
          [Effect.setStatus 401, Effect.send "Not authorized"]
      exact ⟨by decide, rfl⟩

/-- C10: the scheme word of the Authorization header is never inspected — for
any space-free first part, a header "scheme token" with a token signed under
the configured secret is forwarded with the decoded payload attached. -/
theorem protect_ignores_scheme (scheme : String) (u : User) (s : String)
    (now : Nat) (hsch : ' ' ∉ scheme.data) :
    protect ⟨some (scheme ++ " " ++ jwtSign u.id u.username s now)⟩ ⟨some s⟩ =
      [Effect.setUser ⟨u.id, u.username, some now⟩,
       Effect.logMsg (claimsLog ⟨u.id, u.username, some now⟩), Effect.callNext] := by
  apply protect_forwards_token _ _ s _ rfl
  have hb : ' ' ∉ (jwtSign u.id u.username s now).data :=
    space_not_mem_signTokenL ⟨u.id, u.username, some now⟩ s
  rw [jsSecondPart_scheme_append scheme _ hsch hb]
  rfl

theorem protect_ignores_scheme_witness :
    protect ⟨some ("Basic " ++ jwtSign "a" "b" "k" 0)⟩ ⟨some "k"⟩ =
      [Effect.setUser ⟨"a", "b", some 0⟩,
       Effect.logMsg (claimsLog ⟨"a", "b", some 0⟩), Effect.callNext] :=
  protect_ignores_scheme "Basic" ⟨"a", "b"⟩ "k" 0 (by decide)

end NodeV4
